import Mathlib

/-!
Shallow embedding of `lib/mongoose-validator.js` (mongoose-validator).

The module adapts named rule functions from the external `validator` library
(and a process-wide custom registry) into mongoose-style descriptor objects
`{validator, message, ...passthrough}`.  JavaScript values are modelled by
the inductive `JSVal`; function values are represented by `fnRef` indices
interpreted through an explicit environment `env : Nat → List JSVal → JSVal`.
Plain-object property reads consult the own entries first and then the
`Object.prototype` chain (`protoGet`), exactly as JavaScript property lookup
on the module's `{}` registry objects does.
-/

namespace MongooseValidator

/-- JavaScript runtime values, as far as this module observes them.
Numbers are modelled as integers (all values the claims exercise are), and
function objects are opaque references into an external environment. -/
inductive JSVal where
  | undef
  | jsNull
  | bool (b : Bool)
  | num (n : Int)
  | str (s : String)
  | arr (elems : List JSVal)
  | obj (fields : List (String × JSVal))
  | fnRef (idx : Nat)

/-- JavaScript truthiness (`!!v`, and the semantics of `a || b`). -/
def truthy : JSVal → Bool
  | .undef => false
  | .jsNull => false
  | .bool b => b
  | .num n => n != 0
  | .str s => s ≠ ""
  | .arr _ => true
  | .obj _ => true
  | .fnRef _ => true

/-- The JavaScript `typeof` operator (the transpiled `_typeof` helper agrees
with `typeof` on every value this model can represent; symbols are absent). -/
def typeofStr : JSVal → String
  | .undef => "undefined"
  | .jsNull => "object"
  | .bool _ => "boolean"
  | .num _ => "number"
  | .str _ => "string"
  | .arr _ => "object"
  | .obj _ => "object"
  | .fnRef _ => "function"

/-- `is.function` from the `is` package: the value is a function object. -/
def is_function : JSVal → Bool
  | .fnRef _ => true
  | _ => false

/-- `is.string` from the `is` package: `toString` tag is `[object String]`
(the empty string qualifies). -/
def is_string : JSVal → Bool
  | .str _ => true
  | _ => false

/-- `is.array` from the `is` package. -/
def is_array : JSVal → Bool
  | .arr _ => true
  | _ => false

/-- `is.undef` from the `is` package: strict equality with `undefined`. -/
def is_undef : JSVal → Bool
  | .undef => true
  | _ => false

/-- `is.nil` from the `is` package: strict equality with `null`. -/
def is_nil : JSVal → Bool
  | .jsNull => true
  | _ => false

/-- `is.empty` from the `is` package: empty array/string, or a plain object
with no own enumerable key; every other value (null and undefined included)
is not empty. -/
def is_empty : JSVal → Bool
  | .arr xs => xs.isEmpty
  | .str s => s = ""
  | .obj fields => fields.isEmpty
  | _ => false

/-- The underlying text of a string value (`""` on anything else; used where
the source has already checked `is.string`, and doubling as the `''` default
the source applies to an undefined message). -/
def asString : JSVal → String
  | .str s => s
  | _ => ""

/-- Own enumerable property names of `Object.prototype` whose values are
(truthy) function objects; a property read on a plain `{}` object falls back
to these.  `Object.prototype`'s members are functions, modelled as an opaque
function reference. -/
def objectProtoNames : List String :=
  ["constructor", "hasOwnProperty", "isPrototypeOf", "propertyIsEnumerable",
   "toLocaleString", "toString", "valueOf",
   "__defineGetter__", "__defineSetter__", "__lookupGetter__", "__lookupSetter__"]

/-- Property read answered by the `Object.prototype` chain of a plain object
(`__proto__` is the accessor returning `Object.prototype` itself, which has
no own enumerable key). -/
def protoGet (key : String) : JSVal :=
  if key = "__proto__" then JSVal.obj []
  else if objectProtoNames.contains key then JSVal.fnRef 0
  else JSVal.undef

/-- JavaScript property read `obj[key]` on a plain object: own entries first
(latest assignment first in our association lists), then the
`Object.prototype` chain. -/
def jsGet (fields : List (String × JSVal)) (key : String) : JSVal :=
  match fields.lookup key with
  | some v => v
  | none => protoGet key

/-- JavaScript `a || b`. -/
def jsOr (a b : JSVal) : JSVal :=
  if truthy a then a else b

mutual
/-- JavaScript `String(v)` coercion for the values of this model (function
sources are irrelevant to every claim; arrays stringify as their elements
joined by commas with null/undefined elements blank). -/
def jsToString : JSVal → String
  | .undef => "undefined"
  | .jsNull => "null"
  | .bool b => if b then "true" else "false"
  | .num n => toString n
  | .str s => s
  | .arr xs => String.intercalate "," (jsArrStrings xs)
  | .obj _ => "[object Object]"
  | .fnRef _ => "function () \x7b [native code] \x7d"

/-- Element-wise stringification used by `Array.prototype.toString`. -/
def jsArrStrings : List JSVal → List String
  | [] => []
  | v :: vs => (if is_undef v || is_nil v then "" else jsToString v) :: jsArrStrings vs
end

/-- Source `omit(obj, ...keys)` (the name `omit` is a Lean keyword): keep
every own key of `obj` that is not listed in `keys`, rebuilding the object
with the kept keys bound to their values read back from `obj`. -/
def omitKeys (obj : List (String × JSVal)) (keys : List String) : List (String × JSVal) :=
  (((obj.map Prod.fst).filter (fun k => !(keys.contains k))).map (fun k => (k, jsGet obj k)))

/-- Source `getValidatorFn(validator)`: a function value is returned as-is;
a non-empty string is looked up in `validator.js` first and the custom
registry second (`validatorjs[v] || customValidators[v] || undefined`);
everything else falls through to `undefined`. -/
def getValidatorFn (validatorjs : String → JSVal)
    (customValidators : List (String × JSVal)) (validator : JSVal) : JSVal :=
  if is_function validator then validator
  else if is_string validator && !(is_empty validator) then
    jsOr (jsOr (validatorjs (asString validator))
          (jsGet customValidators (asString validator))) JSVal.undef
  else JSVal.undef

/-- Source `toArray(val = [])`: an explicit `undefined` argument takes the
default `[]`; an array is used as-is; anything else is wrapped by
`Array.of(val)` into a one-element array. -/
def toArray (arg : JSVal) : List JSVal :=
  match (if is_undef arg then JSVal.arr [] else arg) with
  | .arr xs => xs
  | v => [v]

/-- Source `findFirstString(...vals)`: `vals.filter(is.string).shift()` —
the first string-typed entry, or `undefined` when there is none. -/
def findFirstString (vals : List JSVal) : JSVal :=
  match vals.filter is_string with
  | [] => JSVal.undef
  | v :: _ => v

/-- Numeric value of a digit string, as JavaScript array indexing parses the
canonical representation (`"12"` indexes element 12). -/
def parseDigits (ds : List Char) : Nat :=
  ds.foldl (fun acc c => 10 * acc + (c.toNat - 48)) 0

/-- Match the remainder of the regex `/{ARGS\[(\d+)\]}/` after its leading
brace: the literal `ARGS[`, then a maximal non-empty digit run, then `]}`.
Returns the captured digit run and the unconsumed tail. -/
def tryTokenBody (cs : List Char) : Option (List Char × List Char) :=
  match cs with
  | a :: r :: g :: s :: lb :: rest =>
    if a = 'A' ∧ r = 'R' ∧ g = 'G' ∧ s = 'S' ∧ lb = '[' then
      match rest.dropWhile Char.isDigit with
      | rb :: rc :: rest2 =>
        if rb = ']' ∧ rc = '}' ∧ (rest.takeWhile Char.isDigit).isEmpty = false then
          some (rest.takeWhile Char.isDigit, rest2)
        else none
      | _ => none
    else none
  | _ => none

/-- JavaScript `args[submatch]` where `submatch` is the captured digit text:
array indexing only answers the canonical numeral (a leading-zero text such
as `"007"` is not an array index and reads `undefined`). -/
def argLookup (args : List JSVal) (ds : List Char) : JSVal :=
  if ds.head? = some '0' ∧ 1 < ds.length then JSVal.undef
  else (args.get? (parseDigits ds)).getD JSVal.undef

/-- The replacement the source's callback produces for one matched token:
`args[submatch] || ''`, stringified by `String.prototype.replace`. -/
def tokenReplacement (args : List JSVal) (ds : List Char) : String :=
  if truthy (argLookup args ds) then jsToString (argLookup args ds) else ""

/-- One left-to-right pass of `message.replace(/{ARGS\[(\d+)\]}/g, ...)`:
at each position, if the token regex matches, emit the replacement and
resume after the match, otherwise emit the character and advance by one.
The fuel argument (initially the character count) only makes the recursion
structural; every step consumes at least one character. -/
def replaceTokensAux (args : List JSVal) : Nat → List Char → List Char
  | 0, cs => cs
  | _ + 1, [] => []
  | fuel + 1, c :: cs =>
    if c = '{' then
      match tryTokenBody cs with
      | some (ds, rest) => (tokenReplacement args ds).data ++ replaceTokensAux args fuel rest
      | none => c :: replaceTokensAux args fuel cs
    else c :: replaceTokensAux args fuel cs

/-- The full scan of a character list, with the fuel instantiated. -/
def replaceTokens (args : List JSVal) (cs : List Char) : List Char :=
  replaceTokensAux args cs.length cs

/-- Source `interpolateMessageWithArgs(message = '', args = [])`. -/
def interpolateMessageWithArgs (message : String) (args : List JSVal) : String :=
  String.mk (replaceTokens args message.data)

/-- Source `createValidator(fn, args, passIfEmpty)`: the produced mongoose
validator closure.  `fn.apply(this, [val].concat(args))` is the application
of the rule function to the value followed by the resolved arguments. -/
def createValidator (fn : List JSVal → JSVal) (args : List JSVal)
    (passIfEmpty : Bool) : JSVal → JSVal :=
  fun val =>
    if (passIfEmpty && (is_empty val || is_nil val)) || is_undef val then JSVal.bool true
    else fn (val :: args)

/-- The module-level mutable registries `customValidators` and
`customErrorMessages` (both start as plain `{}` objects). -/
structure RegState where
  customValidators : List (String × JSVal)
  customErrorMessages : List (String × JSVal)

/-- The registries as module initialization leaves them. -/
def initialState : RegState := ⟨[], []⟩

/-- Application of a resolved function value through the function
environment (invoking a non-function would throw in JavaScript; the module
never does so before the descriptor is built). -/
def applyFn (env : Nat → List JSVal → JSVal) (f : JSVal) : List JSVal → JSVal :=
  match f with
  | .fnRef i => env i
  | _ => fun _ => JSVal.undef

/-- The descriptor object `validate` returns:
`Object.assign({validator, message}, mongooseOpts)`.  `mongooseOpts` never
contains the keys `validator` or `message` (they are omitted), so the merge
is a disjoint union and the three parts represent it exactly. -/
structure Descriptor where
  validator : JSVal → JSVal
  message : String
  mongooseOpts : List (String × JSVal)

/-- Source `validate(options)`.  `validatorjs` is the property read on the
external `validator` library module, `dem` the property read on the
JSON-loaded `defaultErrorMessages` table (the JSON file is not part of the
sources at hand, and the spec leaves its entries abstract), `env` interprets
function references, `st` the registries, and `options` the own enumerable
entries of the caller's options object. -/
def validate (validatorjs : String → JSVal) (dem : String → JSVal)
    (env : Nat → List JSVal → JSVal) (st : RegState)
    (options : List (String × JSVal)) : Except String Descriptor :=
  let optValidator := jsGet options "validator"
  if is_undef optValidator then
    Except.error "validator option undefined"
  else if !(is_function optValidator) && !(is_string optValidator) then
    Except.error ("validator must be of type function or string, received " ++
      typeofStr optValidator)
  else
    let validatorName := if is_string optValidator then asString optValidator else ""
    let validatorFn := getValidatorFn validatorjs st.customValidators optValidator
    if is_undef validatorFn then
      Except.error ("validator `" ++ validatorName ++
        "` does not exist in validator.js or as a custom validator")
    else
      let passIfEmpty := truthy (jsGet options "passIfEmpty")
      let mongooseOpts := omitKeys options ["passIfEmpty", "message", "validator", "arguments"]
      let args := toArray (jsGet options "arguments")
      let messageStr := findFirstString [jsGet options "message",
        jsGet st.customErrorMessages validatorName, dem validatorName, JSVal.str "Error"]
      let message := interpolateMessageWithArgs (asString messageStr) args
      Except.ok { validator := createValidator (applyFn env validatorFn) args passIfEmpty,
                  message := message,
                  mongooseOpts := mongooseOpts }

/-- Source `validate.extend(name, fn, msg = 'Error')`.  The returned pair is
(thrown error message if any, the registries after the call); an explicit
`undefined` third argument also takes the `'Error'` default.  The stored
wrapper `function (...args) { return fn.apply(this, args) }` forwards every
positional argument to `fn`, so it is represented by the function value
itself. -/
def extend (st : RegState) (name fnv msgArg : JSVal) : Option String × RegState :=
  let msg := if is_undef msgArg then JSVal.str "Error" else msgArg
  if typeofStr name ≠ "string" then
    (some ("name must be a string, received " ++ typeofStr name), st)
  else if typeofStr fnv ≠ "function" then
    (some ("validator must be a function, received " ++ typeofStr fnv), st)
  else if typeofStr msg ≠ "string" then
    (some ("message must be a string, received " ++ typeofStr msg), st)
  else if asString name = "" then
    (some "name is required", st)
  else if truthy (jsGet st.customValidators (asString name)) then
    (some ("validator `" ++ asString name ++ "` already exists"), st)
  else
    (none, { customValidators := (asString name, fnv) :: st.customValidators,
             customErrorMessages := (asString name, msg) :: st.customErrorMessages })

/-- Projection used to observe the message field of a `validate` outcome. -/
def resultMessage : Except String Descriptor → Option String
  | .ok d => some d.message
  | .error _ => none

/-!  Spec-side definitions, for refinement comparisons only (they follow the
words of the specification, not the source). -/

/-- Spec-side message-template selection: the first string-typed candidate
wins (written from the spec's precedence sentence, with emptiness ignored,
which is the amended reading). -/
def firstStringSpec : List JSVal → JSVal
  | [] => JSVal.undef
  | v :: vs => if is_string v then v else firstStringSpec vs

/-- A structured message template: literal runs interleaved with
`ARGS`-placeholder tokens. -/
inductive TSeg where
  | lit (cs : List Char)
  | tok (n : Nat)

/-- The canonical decimal digit characters of a natural number. -/
def natChars (n : Nat) : List Char :=
  if n = 0 then ['0'] else (Nat.digits 10 n).reverse.map (fun d => Char.ofNat (48 + d))

/-- The concrete text of one template segment; a token renders as the
placeholder with a canonical decimal index. -/
def renderSegChars : TSeg → List Char
  | .lit cs => cs
  | .tok n => '{' :: 'A' :: 'R' :: 'G' :: 'S' :: '[' :: (natChars n ++ [']', '}'])

/-- The concrete text of a whole structured template. -/
def renderChars (segs : List TSeg) : List Char :=
  segs.foldr (fun seg acc => renderSegChars seg ++ acc) []

/-- Spec-side substitution for one segment under the amended claim: a token
becomes the indexed argument coerced to text when that argument exists and
is truthy, and empty text otherwise; literals are untouched. -/
def substSegChars (args : List JSVal) : TSeg → List Char
  | .lit cs => cs
  | .tok n =>
    match args.get? n with
    | none => []
    | some v => if truthy v then (jsToString v).data else []

/-- Spec-side substitution over a whole structured template. -/
def substChars (args : List JSVal) (segs : List TSeg) : List Char :=
  segs.foldr (fun seg acc => substSegChars args seg ++ acc) []

/-!  Concrete instances used to exercise the theorems on closed inputs. -/

/-- An external library exposing no rules at all. -/
def vjsNone : String → JSVal := fun _ => JSVal.undef

/-- A default-error-message table with no entries. -/
def demNone : String → JSVal := fun _ => JSVal.undef

/-- A function environment where every function returns `true`. -/
def envConst : Nat → List JSVal → JSVal := fun _ _ => JSVal.bool true

/-- An external library exposing exactly one rule, `isEmail`. -/
def vjsEmail : String → JSVal :=
  fun s => if s = "isEmail" then JSVal.fnRef 7 else JSVal.undef

/-- Registries holding one custom rule `isFoo` with default message
`Custom msg`. -/
def stFoo : RegState :=
  ⟨[("isFoo", JSVal.fnRef 2)], [("isFoo", JSVal.str "Custom msg")]⟩

/-!  Lemmas about the scanner. -/

lemma tryTokenBody_length {cs ds rest : List Char}
    (h : tryTokenBody cs = some (ds, rest)) : rest.length < cs.length := by
  rcases cs with _ | ⟨a, _ | ⟨r, _ | ⟨g, _ | ⟨s, _ | ⟨lb, rest0⟩⟩⟩⟩⟩
  · simp [tryTokenBody] at h
  · simp [tryTokenBody] at h
  · simp [tryTokenBody] at h
  · simp [tryTokenBody] at h
  · simp [tryTokenBody] at h
  · simp only [tryTokenBody] at h
    split at h
    · split at h
      · rename_i rb rc rest2 heq
        split at h
        · simp only [Option.some.injEq, Prod.mk.injEq] at h
          obtain ⟨h1, h2⟩ := h
          subst h2
          have hlen := congrArg List.length (List.takeWhile_append_dropWhile
            (p := Char.isDigit) (l := rest0))
          rw [heq] at hlen
          simp only [List.length_append, List.length_cons] at hlen
          simp only [List.length_cons]
          omega
        · simp at h
      · simp at h
    · simp at h

lemma replaceTokensAux_congr (args : List JSVal) :
    ∀ f1 f2 cs, cs.length ≤ f1 → cs.length ≤ f2 →
      replaceTokensAux args f1 cs = replaceTokensAux args f2 cs := by
  intro f1
  induction f1 with
  | zero =>
    intro f2 cs h1 _
    have hcs : cs = [] := List.eq_nil_of_length_eq_zero (Nat.le_zero.mp h1)
    subst hcs
    cases f2 <;> simp [replaceTokensAux]
  | succ f1 ih =>
    intro f2 cs h1 h2
    cases cs with
    | nil => cases f2 <;> simp [replaceTokensAux]
    | cons c cs =>
      cases f2 with
      | zero => simp at h2
      | succ f2 =>
        simp only [List.length_cons, Nat.add_le_add_iff_right] at h1 h2
        by_cases hc : c = '{'
        · subst hc
          simp only [replaceTokensAux, if_pos rfl]
          cases htb : tryTokenBody cs with
          | none =>
            show '{' :: replaceTokensAux args f1 cs = '{' :: replaceTokensAux args f2 cs
            rw [ih f2 cs h1 h2]
          | some p =>
            obtain ⟨ds, rest⟩ := p
            have hlt := tryTokenBody_length htb
            show (tokenReplacement args ds).data ++ replaceTokensAux args f1 rest
                = (tokenReplacement args ds).data ++ replaceTokensAux args f2 rest
            rw [ih f2 rest (by omega) (by omega)]
        · simp only [replaceTokensAux, if_neg hc]
          rw [ih f2 cs h1 h2]

lemma replaceTokens_cons_ne (args : List JSVal) {c : Char} (h : ¬ c = '{')
    (cs : List Char) : replaceTokens args (c :: cs) = c :: replaceTokens args cs := by
  simp [replaceTokens, replaceTokensAux, h]

lemma replaceTokens_append_lit (args : List JSVal) :
    ∀ (l cs : List Char), (∀ c ∈ l, ¬ c = '{') →
      replaceTokens args (l ++ cs) = l ++ replaceTokens args cs := by
  intro l
  induction l with
  | nil => intro cs _; rfl
  | cons c l ih =>
    intro cs h
    rw [List.cons_append, replaceTokens_cons_ne args (h c (by simp)),
      ih cs (fun x hx => h x (by simp [hx]))]
    rfl

lemma replaceTokens_token (args : List JSVal) {body ds rest : List Char}
    (h : tryTokenBody body = some (ds, rest)) :
    replaceTokens args ('{' :: body)
      = (tokenReplacement args ds).data ++ replaceTokens args rest := by
  have hlen := tryTokenBody_length h
  show replaceTokensAux args (body.length + 1) ('{' :: body) = _
  simp only [replaceTokensAux, if_pos rfl, h]
  rw [replaceTokensAux_congr args body.length rest.length rest (by omega) le_rfl]
  rfl

/-!  Lemmas about canonical decimal digit lists. -/

lemma digitChar_isDigit {d : Nat} (h : d < 10) : (Char.ofNat (48 + d)).isDigit = true := by
  interval_cases d <;> decide

lemma digitChar_toNat {d : Nat} (h : d < 10) : (Char.ofNat (48 + d)).toNat - 48 = d := by
  interval_cases d <;> decide

lemma digitChar_ne_zero {d : Nat} (h1 : d < 10) (h2 : d ≠ 0) :
    ¬ Char.ofNat (48 + d) = '0' := by
  interval_cases d <;> simp_all

lemma natChars_all_digit {n : Nat} : ∀ c ∈ natChars n, c.isDigit = true := by
  intro c hc
  unfold natChars at hc
  split at hc
  · simp only [List.mem_singleton] at hc
    subst hc
    decide
  · simp only [List.mem_map, List.mem_reverse] at hc
    obtain ⟨d, hd, rfl⟩ := hc
    exact digitChar_isDigit (Nat.digits_lt_base (by norm_num) hd)

lemma natChars_ne_nil {n : Nat} : (natChars n).isEmpty = false := by
  unfold natChars
  split
  · rfl
  · rename_i hn
    simp [List.isEmpty_iff, Nat.digits_ne_nil_iff_ne_zero.mpr hn]

lemma foldr_ofDigits (D : List Nat) (h : ∀ d ∈ D, d < 10) :
    D.foldr (fun d acc => 10 * acc + ((Char.ofNat (48 + d)).toNat - 48)) 0
      = Nat.ofDigits 10 D := by
  induction D with
  | nil => simp [Nat.ofDigits_nil]
  | cons d D ih =>
    simp only [List.foldr_cons, Nat.ofDigits_cons,
      ih (fun x hx => h x (by simp [hx])), digitChar_toNat (h d (by simp))]
    omega

lemma parseDigits_natChars (n : Nat) : parseDigits (natChars n) = n := by
  unfold natChars
  split
  · rename_i hn
    subst hn
    decide
  · unfold parseDigits
    rw [List.foldl_map, List.foldl_reverse,
      foldr_ofDigits _ (fun d hd => Nat.digits_lt_base (by norm_num) hd)]
    exact Nat.ofDigits_digits 10 n

lemma natChars_head_not_zero {n : Nat} (hn : n ≠ 0) :
    ¬ (natChars n).head? = some '0' := by
  unfold natChars
  rw [if_neg hn]
  have hne : Nat.digits 10 n ≠ [] := Nat.digits_ne_nil_iff_ne_zero.mpr hn
  rw [List.head?_map, List.head?_reverse, List.getLast?_eq_getLast _ hne]
  have hlt := Nat.digits_lt_base (by norm_num) (List.getLast_mem hne)
  have hnz := Nat.getLast_digit_ne_zero 10 hn
  intro hcontra
  simp only [Option.map_some', Option.some.injEq] at hcontra
  exact digitChar_ne_zero hlt hnz hcontra

lemma argLookup_natChars (args : List JSVal) (n : Nat) :
    argLookup args (natChars n) = (args.get? n).getD JSVal.undef := by
  unfold argLookup
  rw [if_neg, parseDigits_natChars]
  by_cases hn : n = 0
  · subst hn
    intro hand
    have : (natChars 0).length = 1 := by decide
    omega
  · intro hand
    exact natChars_head_not_zero hn hand.1

lemma takeWhile_digits_append {ds : List Char} (tail : List Char)
    (h : ∀ c ∈ ds, c.isDigit = true) :
    (ds ++ ']' :: tail).takeWhile Char.isDigit = ds ∧
    (ds ++ ']' :: tail).dropWhile Char.isDigit = ']' :: tail := by
  induction ds with
  | nil =>
    constructor
    · simp [List.takeWhile_cons]
    · simp [List.dropWhile_cons]
  | cons d ds ih =>
    have hd : d.isDigit = true := h d (by simp)
    have htl := ih (fun c hc => h c (by simp [hc]))
    constructor
    · simp [List.takeWhile_cons, hd, htl.1]
    · simp [List.dropWhile_cons, hd, htl.2]

lemma tryTokenBody_render (n : Nat) (tail : List Char) :
    tryTokenBody ('A' :: 'R' :: 'G' :: 'S' :: '[' :: (natChars n ++ ']' :: '}' :: tail))
      = some (natChars n, tail) := by
  have htw := takeWhile_digits_append ('}' :: tail) (natChars_all_digit (n := n))
  simp [tryTokenBody, htw.1, htw.2, natChars_ne_nil]

lemma tokenReplacement_natChars (args : List JSVal) (n : Nat) :
    (tokenReplacement args (natChars n)).data = substSegChars args (TSeg.tok n) := by
  unfold tokenReplacement substSegChars
  rw [argLookup_natChars]
  simp only [List.get?_eq_getElem?]
  cases h : args[n]? with
  | none => simp [h, truthy]
  | some v => cases hv : truthy v <;> simp [h, hv]

lemma replaceTokens_renderChars (args : List JSVal) :
    ∀ segs : List TSeg, (∀ cs, TSeg.lit cs ∈ segs → ∀ c ∈ cs, ¬ c = '{') →
      replaceTokens args (renderChars segs) = substChars args segs := by
  intro segs
  induction segs with
  | nil => intro _; rfl
  | cons seg rest ih =>
    intro hlit
    have hrest := ih (fun cs hcs => hlit cs (by simp [hcs]))
    cases seg with
    | lit cs =>
      have h1 : ∀ c ∈ cs, ¬ c = '{' := hlit cs (by simp)
      show replaceTokens args (cs ++ renderChars rest) = cs ++ substChars args rest
      rw [replaceTokens_append_lit args cs _ h1, hrest]
    | tok n =>
      show replaceTokens args
          (('{' :: 'A' :: 'R' :: 'G' :: 'S' :: '[' :: (natChars n ++ [']', '}']))
            ++ renderChars rest)
        = substSegChars args (TSeg.tok n) ++ substChars args rest
      have hshape : ('{' :: 'A' :: 'R' :: 'G' :: 'S' :: '[' :: (natChars n ++ [']', '}']))
            ++ renderChars rest
          = '{' :: 'A' :: 'R' :: 'G' :: 'S' :: '['
              :: (natChars n ++ ']' :: '}' :: renderChars rest) := by
        simp [List.cons_append, List.append_assoc]
      rw [hshape,
        replaceTokens_token args (tryTokenBody_render n (renderChars rest)),
        tokenReplacement_natChars, hrest]

/-!  Lemmas about object property reads and `omitKeys`. -/

lemma jsGet_cons_self (k : String) (v : JSVal) (rest : List (String × JSVal)) :
    jsGet ((k, v) :: rest) k = v := by
  simp [jsGet, List.lookup]

lemma jsGet_cons_ne {k k' : String} (h : ¬ k' = k) (v : JSVal)
    (rest : List (String × JSVal)) : jsGet ((k, v) :: rest) k' = jsGet rest k' := by
  simp only [jsGet, List.lookup, beq_eq_false_iff_ne.mpr h]

lemma omitKeys_eq_filter :
    ∀ (options : List (String × JSVal)) (keys : List String),
      (options.map Prod.fst).Nodup →
      omitKeys options keys = options.filter (fun kv => !(keys.contains kv.1)) := by
  intro options
  induction options with
  | nil => intro keys _; rfl
  | cons kv rest ih =>
    obtain ⟨k, v⟩ := kv
    intro keys hnd
    simp only [List.map_cons, List.nodup_cons] at hnd
    obtain ⟨hk, hnd2⟩ := hnd
    have htail : ((rest.map Prod.fst).filter (fun k2 => !(keys.contains k2))).map
          (fun k2 => (k2, jsGet ((k, v) :: rest) k2))
        = rest.filter (fun kv2 => !(keys.contains kv2.1)) := by
      have hcongr : ∀ k2 ∈ (rest.map Prod.fst).filter (fun k2 => !(keys.contains k2)),
          (k2, jsGet ((k, v) :: rest) k2) = (k2, jsGet rest k2) := by
        intro k2 hk2
        have hmem := List.mem_of_mem_filter hk2
        have hne : ¬ k2 = k := fun hcontra => hk (hcontra ▸ hmem)
        rw [jsGet_cons_ne hne]
      rw [List.map_congr_left hcongr]
      exact ih keys hnd2
    show (((k :: rest.map Prod.fst).filter (fun k2 => !(keys.contains k2))).map
        (fun k2 => (k2, jsGet ((k, v) :: rest) k2)))
      = ((k, v) :: rest).filter (fun kv2 => !(keys.contains kv2.1))
    rw [List.filter_cons, List.filter_cons]
    by_cases hmem : keys.contains k = true
    · rw [if_neg (by simpa using hmem), if_neg (by simpa using hmem)]
      exact htail
    · simp only [Bool.not_eq_true] at hmem
      rw [if_pos (by simpa using hmem), if_pos (by simpa using hmem),
        List.map_cons, jsGet_cons_self]
      rw [htail]

lemma is_undef_of_truthy {x : JSVal} (h : truthy x = true) : is_undef x = false := by
  cases x <;> simp_all [truthy, is_undef]

/-!  Claim theorems. -/

/-- Claim C1: for every resolved rule function `fn`, resolved argument
sequence (a non-array `arguments` value is wrapped into a one-element array,
an absent one yields the empty array, an array is used as-is), and flag
`passIfEmpty`, the produced validator returns `true` on an undefined value
unconditionally; returns `true` without consulting `fn` whenever
`passIfEmpty` is set and the value is empty, null or undefined; and in every
other case returns exactly `fn` applied to the value followed by the
arguments. -/
theorem claim_C1 (fn : List JSVal → JSVal) (args : List JSVal) (passIfEmpty : Bool)
    (argVal val : JSVal) :
    toArray JSVal.undef = [] ∧
    (∀ xs, toArray (JSVal.arr xs) = xs) ∧
    (is_array argVal = false → is_undef argVal = false → toArray argVal = [argVal]) ∧
    createValidator fn args passIfEmpty JSVal.undef = JSVal.bool true ∧
    ((is_empty val || is_nil val || is_undef val) = true →
      createValidator fn args true val = JSVal.bool true) ∧
    (is_undef val = false → (passIfEmpty && (is_empty val || is_nil val)) = false →
      createValidator fn args passIfEmpty val = fn (val :: args)) := by
  refine ⟨rfl, fun xs => rfl, ?_, ?_, ?_, ?_⟩
  · intro h1 h2
    cases argVal <;> simp_all [toArray, is_array, is_undef]
  · simp [createValidator, is_empty, is_nil, is_undef]
  · intro h
    simp only [Bool.or_eq_true] at h
    rcases h with (h | h) | h <;> simp [createValidator, h]
  · intro h1 h2
    simp [createValidator, h1, h2]

/-- Witness for C1 at concrete inputs: a number argument is wrapped into a
one-element array; an empty string passes when `passIfEmpty` is set; a
non-empty string is handed to the rule function. -/
theorem witness_C1 :
    toArray (JSVal.num 4) = [JSVal.num 4] ∧
    createValidator (fun _ => JSVal.bool false) [] true (JSVal.str "") = JSVal.bool true ∧
    createValidator (fun a => JSVal.arr a) [] false (JSVal.str "ab")
      = JSVal.arr [JSVal.str "ab"] :=
  ⟨(claim_C1 (fun _ => JSVal.undef) [] true (JSVal.num 4) JSVal.undef).2.2.1
      (by decide) (by decide),
   (claim_C1 (fun _ => JSVal.bool false) [] true JSVal.undef (JSVal.str "")).2.2.2.2.1
      (by decide),
   (claim_C1 (fun a => JSVal.arr a) [] false JSVal.undef (JSVal.str "ab")).2.2.2.2.2
      (by decide) (by decide)⟩

/-- Claim C9: with `passIfEmpty` false the produced validator does not
short-circuit on null — it applies the rule function to null and the
arguments — while it still short-circuits undefined to `true`; with
`passIfEmpty` true, null and empty values are short-circuited to `true` as
well. -/
theorem claim_C9 (fn : List JSVal → JSVal) (args : List JSVal) (val : JSVal) :
    createValidator fn args false JSVal.jsNull = fn (JSVal.jsNull :: args) ∧
    createValidator fn args false JSVal.undef = JSVal.bool true ∧
    (is_undef val = false → createValidator fn args false val = fn (val :: args)) ∧
    createValidator fn args true JSVal.jsNull = JSVal.bool true ∧
    (is_empty val = true → createValidator fn args true val = JSVal.bool true) := by
  refine ⟨rfl, rfl, ?_, rfl, ?_⟩
  · intro h
    simp [createValidator, h]
  · intro h
    simp [createValidator, h]

/-- Witness for C9 at concrete inputs: a null value with `passIfEmpty`
false reaches the rule function; an empty array with `passIfEmpty` true
does not. -/
theorem witness_C9 :
    createValidator (fun a => JSVal.arr a) [JSVal.num 1] false JSVal.jsNull
      = JSVal.arr [JSVal.jsNull, JSVal.num 1] ∧
    createValidator (fun _ => JSVal.bool false) [] true (JSVal.arr [])
      = JSVal.bool true :=
  ⟨(claim_C9 (fun a => JSVal.arr a) [JSVal.num 1] JSVal.jsNull).2.2.1 (by decide),
   (claim_C9 (fun _ => JSVal.bool false) [] (JSVal.arr [])).2.2.2.2 (by decide)⟩

/-- Claim C10: names inherited from `Object.prototype` — `toString`,
`valueOf`, `constructor`, `hasOwnProperty` — are reported as already
existing by the very first `validate.extend` call on a fresh registry,
because the duplicate check is a truthy property lookup on a plain object
rather than an own-key membership test. -/
theorem claim_C10 :
    extend initialState (JSVal.str "toString") (JSVal.fnRef 1) JSVal.undef
      = (some "validator `toString` already exists", initialState) ∧
    extend initialState (JSVal.str "valueOf") (JSVal.fnRef 1) JSVal.undef
      = (some "validator `valueOf` already exists", initialState) ∧
    extend initialState (JSVal.str "constructor") (JSVal.fnRef 1) JSVal.undef
      = (some "validator `constructor` already exists", initialState) ∧
    extend initialState (JSVal.str "hasOwnProperty") (JSVal.fnRef 1) JSVal.undef
      = (some "validator `hasOwnProperty` already exists", initialState) :=
  ⟨rfl, rfl, rfl, rfl⟩

/-- Claim C5: `validate.extend` performs its five validations in order —
name not a string, rule not a function, message not a string, name empty,
name already answering truthily in the registry — each producing the stated
error; whenever any of them fires, the registries are returned unchanged
(no partial registration), and only when all pass are both tables extended
with the new entry. -/
theorem claim_C5 (st : RegState) (name fnv msgArg : JSVal) :
    let msg := if is_undef msgArg then JSVal.str "Error" else msgArg
    (¬ typeofStr name = "string" →
      extend st name fnv msgArg
        = (some ("name must be a string, received " ++ typeofStr name), st)) ∧
    (typeofStr name = "string" → ¬ typeofStr fnv = "function" →
      extend st name fnv msgArg
        = (some ("validator must be a function, received " ++ typeofStr fnv), st)) ∧
    (typeofStr name = "string" → typeofStr fnv = "function" →
      ¬ typeofStr msg = "string" →
      extend st name fnv msgArg
        = (some ("message must be a string, received " ++ typeofStr msg), st)) ∧
    (typeofStr name = "string" → typeofStr fnv = "function" →
      typeofStr msg = "string" → asString name = "" →
      extend st name fnv msgArg = (some "name is required", st)) ∧
    (typeofStr name = "string" → typeofStr fnv = "function" →
      typeofStr msg = "string" → ¬ asString name = "" →
      truthy (jsGet st.customValidators (asString name)) = true →
      extend st name fnv msgArg
        = (some ("validator `" ++ asString name ++ "` already exists"), st)) ∧
    (∀ e st2, extend st name fnv msgArg = (some e, st2) → st2 = st) ∧
    (typeofStr name = "string" → typeofStr fnv = "function" →
      typeofStr msg = "string" → ¬ asString name = "" →
      truthy (jsGet st.customValidators (asString name)) = false →
      extend st name fnv msgArg
        = (none, ⟨(asString name, fnv) :: st.customValidators,
                  (asString name, msg) :: st.customErrorMessages⟩)) := by
  refine ⟨?_, ?_, ?_, ?_, ?_, ?_, ?_⟩
  · intro h1
    simp [extend, h1]
  · intro h1 h2
    simp [extend, h1, h2]
  · intro h1 h2 h3
    simp [extend, h1, h2, h3]
  · intro h1 h2 h3 h4
    simp [extend, h1, h2, h3, h4]
  · intro h1 h2 h3 h4 h5
    simp [extend, h1, h2, h3, h4, h5]
  · intro e st2 h
    simp only [extend] at h
    repeat' split at h
    all_goals
      first
      | exact (congrArg Prod.snd h).symm
      | exact absurd (congrArg Prod.fst h) (by simp)
  · intro h1 h2 h3 h4 h5
    simp [extend, h1, h2, h3, h4, h5]

/-- Witness for C5 at concrete inputs: a numeric name fails with the
wrong-type error and leaves the registries unchanged; extending `isFoo`
over a registry that already holds it fails with the duplicate error; a
fresh `isBar` with the default message registers both entries. -/
theorem witness_C5 :
    extend initialState (JSVal.num 3) (JSVal.fnRef 1) JSVal.undef
      = (some "name must be a string, received number", initialState) ∧
    extend stFoo (JSVal.str "isFoo") (JSVal.fnRef 1) JSVal.undef
      = (some "validator `isFoo` already exists", stFoo) ∧
    initialState = initialState ∧
    extend initialState (JSVal.str "isBar") (JSVal.fnRef 1) JSVal.undef
      = (none, ⟨[("isBar", JSVal.fnRef 1)], [("isBar", JSVal.str "Error")]⟩) :=
  ⟨(claim_C5 initialState (JSVal.num 3) (JSVal.fnRef 1) JSVal.undef).1 (by decide),
   (claim_C5 stFoo (JSVal.str "isFoo") (JSVal.fnRef 1) JSVal.undef).2.2.2.2.1
      (by decide) (by decide) (by decide) (by decide) (by decide),
   (claim_C5 initialState (JSVal.num 3) (JSVal.fnRef 1) JSVal.undef).2.2.2.2.2.1
      "name must be a string, received number" initialState rfl,
   (claim_C5 initialState (JSVal.str "isBar") (JSVal.fnRef 1) JSVal.undef).2.2.2.2.2.2
      (by decide) (by decide) (by decide) (by decide) (by decide)⟩

/-- Claim C8: a non-empty rule name that is truthy in the external library
resolves to the external library's value even when the registry also holds
it (library first, registry second); a name truthy in neither source makes
`validate` fail with the missing-rule construction error. -/
theorem claim_C8 (vjs dem : String → JSVal) (env : Nat → List JSVal → JSVal)
    (st : RegState) (name : String) :
    (¬ name = "" → truthy (vjs name) = true →
      getValidatorFn vjs st.customValidators (JSVal.str name) = vjs name) ∧
    (¬ name = "" → truthy (vjs name) = false →
      truthy (jsGet st.customValidators name) = true →
      getValidatorFn vjs st.customValidators (JSVal.str name)
        = jsGet st.customValidators name) ∧
    (truthy (vjs name) = false → truthy (jsGet st.customValidators name) = false →
      validate vjs dem env st [("validator", JSVal.str name)]
        = Except.error ("validator `" ++ name ++
            "` does not exist in validator.js or as a custom validator")) := by
  refine ⟨?_, ?_, ?_⟩
  · intro h1 h2
    simp [getValidatorFn, is_function, is_string, is_empty, asString, jsOr, h1, h2]
  · intro h1 h2 h3
    simp [getValidatorFn, is_function, is_string, is_empty, asString, jsOr, h1, h2, h3]
  · intro h1 h2
    have hv : jsGet [("validator", JSVal.str name)] "validator" = JSVal.str name := rfl
    by_cases hname : name = ""
    · subst hname
      rfl
    · simp [validate, hv, getValidatorFn, is_function, is_string, is_empty, is_undef,
        asString, jsOr, h1, h2, hname]

/-- Witness for C8 at concrete inputs: with `isEmail` present in both the
library and the registry, the library's function wins; with the library
empty, the registered `isFoo` wins; an unknown name fails construction. -/
theorem witness_C8 :
    getValidatorFn vjsEmail
        (RegState.mk [("isEmail", JSVal.fnRef 9)] []).customValidators
        (JSVal.str "isEmail") = vjsEmail "isEmail" ∧
    getValidatorFn vjsNone stFoo.customValidators (JSVal.str "isFoo")
      = jsGet stFoo.customValidators "isFoo" ∧
    validate vjsNone demNone envConst initialState [("validator", JSVal.str "nope")]
      = Except.error ("validator `" ++ "nope" ++
          "` does not exist in validator.js or as a custom validator") :=
  ⟨(claim_C8 vjsEmail demNone envConst (RegState.mk [("isEmail", JSVal.fnRef 9)] [])
      "isEmail").1 (by decide) (by decide),
   (claim_C8 vjsNone demNone envConst stFoo "isFoo").2.1
      (by decide) (by decide) (by decide),
   (claim_C8 vjsNone demNone envConst initialState "nope").2.2
      (by decide) (by decide)⟩

/-- Claim C2: `validate` fails exactly in three cases — an undefined
`validator` option (error `validator option undefined`), a `validator`
option that is neither a function nor a string (error naming the received
type), and a string `validator` whose resolution through the library and
the registry comes up undefined (error naming the missing rule); in every
other case it returns a descriptor.  The final conjunct characterises when
resolution comes up undefined for a string name: the name is empty, or it
answers falsily in both the external library and the registry lookup. -/
theorem claim_C2 (vjs dem : String → JSVal) (env : Nat → List JSVal → JSVal)
    (st : RegState) (options : List (String × JSVal)) :
    let v := jsGet options "validator"
    (is_undef v = true →
      validate vjs dem env st options = Except.error "validator option undefined") ∧
    (is_undef v = false → is_function v = false → is_string v = false →
      validate vjs dem env st options = Except.error
        ("validator must be of type function or string, received " ++ typeofStr v)) ∧
    (is_undef v = false → (is_function v = true ∨ is_string v = true) →
      is_undef (getValidatorFn vjs st.customValidators v) = true →
      validate vjs dem env st options = Except.error
        ("validator `" ++ (if is_string v then asString v else "") ++
          "` does not exist in validator.js or as a custom validator")) ∧
    (is_undef v = false → (is_function v = true ∨ is_string v = true) →
      is_undef (getValidatorFn vjs st.customValidators v) = false →
      ∃ d, validate vjs dem env st options = Except.ok d) ∧
    (is_string v = true →
      (is_undef (getValidatorFn vjs st.customValidators v) = true ↔
        (asString v = "" ∨ (truthy (vjs (asString v)) = false ∧
          truthy (jsGet st.customValidators (asString v)) = false)))) := by
  refine ⟨?_, ?_, ?_, ?_, ?_⟩
  · intro h1
    simp [validate, h1]
  · intro h1 h2 h3
    simp [validate, h1, h2, h3]
  · intro h1 h2 h3
    have hcond : (!(is_function (jsGet options "validator"))
        && !(is_string (jsGet options "validator"))) = false := by
      rcases h2 with h | h <;> simp [h]
    simp [validate, h1, hcond, h3]
  · intro h1 h2 h3
    have hcond : (!(is_function (jsGet options "validator"))
        && !(is_string (jsGet options "validator"))) = false := by
      rcases h2 with h | h <;> simp [h]
    cases hres : validate vjs dem env st options with
    | ok d => exact ⟨d, rfl⟩
    | error e => simp [validate, h1, hcond, h3] at hres
  · intro h1
    obtain ⟨s, hv⟩ : ∃ s, jsGet options "validator" = JSVal.str s := by
      cases hx : jsGet options "validator" <;> simp_all [is_string]
    rw [hv]
    by_cases hs : s = ""
    · subst hs
      simp [getValidatorFn, is_function, is_string, is_empty, asString, is_undef]
    · simp only [getValidatorFn, is_function, is_string, is_empty, asString, hs]
      constructor
      · intro h
        by_cases ht : truthy (vjs s) = true
        · exact absurd h (by simp [jsOr, ht, is_undef_of_truthy ht])
        · simp only [Bool.not_eq_true] at ht
          by_cases ht2 : truthy (jsGet st.customValidators s) = true
          · exact absurd h (by simp [jsOr, ht, ht2, is_undef_of_truthy ht2])
          · simp only [Bool.not_eq_true] at ht2
            exact Or.inr ⟨ht, ht2⟩
      · intro h
        rcases h with h | ⟨ha, hb⟩
        · exact False.elim h
        · simp [jsOr, ha, hb, is_undef]

/-- Witness for C2 at concrete inputs: an empty options object fails with
the undefined-validator error; a numeric validator fails naming `number`; an
unknown name fails naming the rule; a function validator succeeds; the
resolution characterisation holds for the unknown name. -/
theorem witness_C2 :
    validate vjsNone demNone envConst initialState []
      = Except.error "validator option undefined" ∧
    validate vjsNone demNone envConst initialState [("validator", JSVal.num 5)]
      = Except.error ("validator must be of type function or string, received "
          ++ typeofStr (jsGet [("validator", JSVal.num 5)] "validator")) ∧
    validate vjsNone demNone envConst initialState [("validator", JSVal.str "nope")]
      = Except.error ("validator `" ++
          (if is_string (jsGet [("validator", JSVal.str "nope")] "validator")
           then asString (jsGet [("validator", JSVal.str "nope")] "validator") else "") ++
          "` does not exist in validator.js or as a custom validator") ∧
    (∃ d, validate vjsNone demNone envConst initialState [("validator", JSVal.fnRef 1)]
      = Except.ok d) ∧
    (is_undef (getValidatorFn vjsNone initialState.customValidators
        (jsGet [("validator", JSVal.str "nope")] "validator")) = true ↔
      (asString (jsGet [("validator", JSVal.str "nope")] "validator") = "" ∨
        (truthy (vjsNone (asString (jsGet [("validator", JSVal.str "nope")] "validator"))) = false ∧
          truthy (jsGet initialState.customValidators
            (asString (jsGet [("validator", JSVal.str "nope")] "validator"))) = false))) :=
  ⟨(claim_C2 vjsNone demNone envConst initialState []).1 (by decide),
   (claim_C2 vjsNone demNone envConst initialState [("validator", JSVal.num 5)]).2.1
      (by decide) (by decide) (by decide),
   (claim_C2 vjsNone demNone envConst initialState [("validator", JSVal.str "nope")]).2.2.1
      (by decide) (Or.inr (by decide)) (by decide),
   (claim_C2 vjsNone demNone envConst initialState [("validator", JSVal.fnRef 1)]).2.2.2.1
      (by decide) (Or.inl (by decide)) (by decide),
   (claim_C2 vjsNone demNone envConst initialState [("validator", JSVal.str "nope")]).2.2.2.2
      (by decide)⟩

/-- Counterexample to C3 as stated: with a caller-supplied empty-string
`message` and a registered default message `Custom msg` for the rule, the
code keeps the empty string as the template (the selection takes the first
string-typed value, not the first non-empty one), so the descriptor's
message is `""` although interpolating the first non-empty candidate would
have produced `Custom msg`. -/
theorem counterexample_C3 :
    resultMessage (validate vjsNone demNone envConst stFoo
      [("validator", JSVal.str "isFoo"), ("message", JSVal.str "")]) = some "" ∧
    interpolateMessageWithArgs "Custom msg"
      (toArray (jsGet [("validator", JSVal.str "isFoo"), ("message", JSVal.str "")]
        "arguments")) = "Custom msg" ∧
    ¬ ("" : String) = "Custom msg" := by
  refine ⟨rfl, rfl, by decide⟩

/-- Claim C3 amended: the message template chosen before interpolation is
the first string-typed value (empty text included) among, in order, the
caller-supplied `message`, the registry default for the rule name, the
built-in default table's entry, and the fallback `Error`; the source's
`findFirstString` coincides with that selection and the resulting
descriptor message is the interpolation of the selected template. -/
theorem claim_C3 (vjs dem : String → JSVal) (env : Nat → List JSVal → JSVal)
    (st : RegState) (options : List (String × JSVal)) (d : Descriptor) :
    (∀ vals, findFirstString vals = firstStringSpec vals) ∧
    (validate vjs dem env st options = Except.ok d →
      d.message = interpolateMessageWithArgs
        (asString (firstStringSpec
          [jsGet options "message",
           jsGet st.customErrorMessages
             (if is_string (jsGet options "validator")
              then asString (jsGet options "validator") else ""),
           dem (if is_string (jsGet options "validator")
              then asString (jsGet options "validator") else ""),
           JSVal.str "Error"]))
        (toArray (jsGet options "arguments"))) := by
  have hfs : ∀ vals, findFirstString vals = firstStringSpec vals := by
    intro vals
    induction vals with
    | nil => rfl
    | cons v vs ih =>
      by_cases h : is_string v = true
      · simp [findFirstString, firstStringSpec, List.filter_cons, h]
      · simp only [Bool.not_eq_true] at h
        simp only [findFirstString, firstStringSpec, List.filter_cons, h,
          Bool.false_eq_true, if_false]
        exact ih
  refine ⟨hfs, ?_⟩
  intro hok
  simp only [validate] at hok
  split at hok
  · exact absurd hok (by simp)
  · split at hok
    · exact absurd hok (by simp)
    · split at hok
      · exact absurd hok (by simp)
      · rw [Except.ok.injEq] at hok
        subst hok
        rw [← hfs]

/-- Witness for the amended C3 at a concrete input: the descriptor built
for the registered rule `isFoo` (env function 2, empty arguments) carries
the interpolation of the selected template. -/
theorem witness_C3 :
    (Descriptor.mk (createValidator (applyFn envConst (JSVal.fnRef 2)) [] false)
        "Custom msg" []).message
      = interpolateMessageWithArgs
          (asString (firstStringSpec
            [jsGet [("validator", JSVal.str "isFoo")] "message",
             jsGet stFoo.customErrorMessages
               (if is_string (jsGet [("validator", JSVal.str "isFoo")] "validator")
                then asString (jsGet [("validator", JSVal.str "isFoo")] "validator") else ""),
             demNone (if is_string (jsGet [("validator", JSVal.str "isFoo")] "validator")
                then asString (jsGet [("validator", JSVal.str "isFoo")] "validator") else ""),
             JSVal.str "Error"]))
          (toArray (jsGet [("validator", JSVal.str "isFoo")] "arguments")) :=
  (claim_C3 vjsNone demNone envConst stFoo [("validator", JSVal.str "isFoo")]
    (Descriptor.mk (createValidator (applyFn envConst (JSVal.fnRef 2)) [] false)
      "Custom msg" [])).2 rfl

/-- Counterexample to C4 as stated: a falsy argument is not stringified —
the element `0` yields empty text where the claim requires `"0"` — and a
replacement may itself contain a placeholder, so the result is not always
free of `ARGS` tokens. -/
theorem counterexample_C4 :
    interpolateMessageWithArgs "{ARGS[0]}" [JSVal.num 0] = "" ∧
    jsToString (JSVal.num 0) = "0" ∧
    ¬ interpolateMessageWithArgs "{ARGS[0]}" [JSVal.num 0] = "0" ∧
    interpolateMessageWithArgs "{ARGS[0]}" [JSVal.str "{ARGS[1]}"] = "{ARGS[1]}" := by
  refine ⟨by decide, by decide, by decide, by decide⟩

/-- Claim C4 amended: over every structured template (literal runs free of
the opening brace, interleaved with `ARGS` tokens carrying canonical
indices), the interpolation replaces each token by the indexed argument
coerced to text when that argument exists and is truthy, and by empty text
when it is missing or falsy, leaving the literal runs untouched. -/
theorem claim_C4 (segs : List TSeg) (args : List JSVal)
    (hlit : ∀ cs, TSeg.lit cs ∈ segs → ∀ c ∈ cs, ¬ c = '{') :
    interpolateMessageWithArgs (String.mk (renderChars segs)) args
      = String.mk (substChars args segs) :=
  congrArg String.mk (replaceTokens_renderChars args segs hlit)

/-- Witness for the amended C4 at a concrete input: the template
`V{ARGS[0]}` with argument list `[4]` interpolates to `V4`. -/
theorem witness_C4 :
    interpolateMessageWithArgs
        (String.mk (renderChars [TSeg.lit ['V'], TSeg.tok 0])) [JSVal.num 4]
      = String.mk (substChars [JSVal.num 4] [TSeg.lit ['V'], TSeg.tok 0]) :=
  claim_C4 [TSeg.lit ['V'], TSeg.tok 0] [JSVal.num 4] (by
    intro cs hcs c hc
    simp only [List.mem_cons, List.not_mem_nil, or_false] at hcs
    rcases hcs with h | h
    · cases h
      simp only [List.mem_singleton] at hc
      subst hc
      decide
    · cases h)

/-- Claim C6: after a successful `validate.extend(name, fn, msg)` for a
name that answers falsily in the external library and was not previously
registered, `validate({validator: name})` succeeds; its descriptor's
validator delegates to `fn` on every value that is not short-circuited
(here: every defined value, since `passIfEmpty` is off), and its `message`
is derived from `msg` by interpolation. -/
theorem claim_C6 (vjs dem : String → JSVal) (env : Nat → List JSVal → JSVal)
    (st : RegState) (name msg : String) (i : Nat)
    (hvjs : truthy (vjs name) = false)
    (hfresh : truthy (jsGet st.customValidators name) = false)
    (hname : ¬ name = "") :
    ∃ st2 d,
      extend st (JSVal.str name) (JSVal.fnRef i) (JSVal.str msg) = (none, st2) ∧
      validate vjs dem env st2 [("validator", JSVal.str name)] = Except.ok d ∧
      d.message = interpolateMessageWithArgs msg [] ∧
      ∀ val, is_undef val = false → d.validator val = env i (val :: []) := by
  refine ⟨⟨(name, JSVal.fnRef i) :: st.customValidators,
           (name, JSVal.str msg) :: st.customErrorMessages⟩,
         ⟨createValidator (applyFn env (JSVal.fnRef i)) [] false,
          interpolateMessageWithArgs msg [], []⟩, ?_, ?_, rfl, ?_⟩
  · simp [extend, typeofStr, asString, is_undef, hname, hfresh]
  · have hv : jsGet [("validator", JSVal.str name)] "validator" = JSVal.str name := rfl
    have hp : jsGet [("validator", JSVal.str name)] "passIfEmpty" = JSVal.undef := rfl
    have hm : jsGet [("validator", JSVal.str name)] "message" = JSVal.undef := rfl
    have ha : jsGet [("validator", JSVal.str name)] "arguments" = JSVal.undef := rfl
    have hcv : jsGet ((name, JSVal.fnRef i) :: st.customValidators) name
        = JSVal.fnRef i := jsGet_cons_self name (JSVal.fnRef i) st.customValidators
    have hcm : jsGet ((name, JSVal.str msg) :: st.customErrorMessages) name
        = JSVal.str msg := jsGet_cons_self name (JSVal.str msg) st.customErrorMessages
    have hresolve : getValidatorFn vjs ((name, JSVal.fnRef i) :: st.customValidators)
        (JSVal.str name) = JSVal.fnRef i := by
      simp [getValidatorFn, is_function, is_string, is_empty, asString, jsOr,
        hname, hvjs, hcv]
      rfl
    simp [validate, hv, hp, hm, ha, hresolve, hcm, is_function, is_string,
      is_empty, is_undef, asString, findFirstString, List.filter_cons,
      truthy, toArray, omitKeys]
  · intro val hval
    simp [createValidator, applyFn, hval]

/-- Witness for C6 at concrete inputs: registering `isBaz` with message
`Hi` on empty registries and then building a descriptor for it. -/
theorem witness_C6 :
    ∃ st2 d,
      extend initialState (JSVal.str "isBaz") (JSVal.fnRef 5) (JSVal.str "Hi")
        = (none, st2) ∧
      validate vjsNone demNone envConst st2 [("validator", JSVal.str "isBaz")]
        = Except.ok d ∧
      d.message = interpolateMessageWithArgs "Hi" [] ∧
      ∀ val, is_undef val = false → d.validator val = envConst 5 (val :: []) :=
  claim_C6 vjsNone demNone envConst initialState "isBaz" "Hi" 5
    (by decide) (by decide) (by decide)

/-- Claim C7: for every successful `validate(options)` call over an options
object with distinct keys, the descriptor's passthrough part is exactly the
options entries whose key is not one of the four reserved keys
(`passIfEmpty`, `message`, `validator`, `arguments`), values unchanged, and
no reserved key occurs among the passthrough entries (the `validator` and
`message` fields of the descriptor are the separately computed ones by
construction). -/
theorem claim_C7 (vjs dem : String → JSVal) (env : Nat → List JSVal → JSVal)
    (st : RegState) (options : List (String × JSVal)) (d : Descriptor)
    (hnd : (options.map Prod.fst).Nodup)
    (hok : validate vjs dem env st options = Except.ok d) :
    d.mongooseOpts = options.filter
      (fun kv => !(["passIfEmpty", "message", "validator", "arguments"].contains kv.1)) ∧
    ∀ k v2, k ∈ (["passIfEmpty", "message", "validator", "arguments"] : List String) →
      ¬ (k, v2) ∈ d.mongooseOpts := by
  have hmo : d.mongooseOpts
      = omitKeys options ["passIfEmpty", "message", "validator", "arguments"] := by
    simp only [validate] at hok
    split at hok
    · exact absurd hok (by simp)
    · split at hok
      · exact absurd hok (by simp)
      · split at hok
        · exact absurd hok (by simp)
        · rw [Except.ok.injEq] at hok
          subst hok
          rfl
  have hfilter := omitKeys_eq_filter options
    ["passIfEmpty", "message", "validator", "arguments"] hnd
  refine ⟨hmo.trans hfilter, ?_⟩
  intro k v2 hk hmem
  rw [hmo.trans hfilter] at hmem
  have hp := List.of_mem_filter hmem
  simp at hp hk
  rcases hk with h | h | h | h
  · exact hp.1 h
  · exact hp.2.1 h
  · exact hp.2.2.1 h
  · exact hp.2.2.2 h

/-- Witness for C7 at a concrete input: an extra `foo` option passes
through unchanged while the four reserved keys do not appear. -/
theorem witness_C7 :
    (Descriptor.mk (createValidator (applyFn envConst (JSVal.fnRef 1)) [] false) "Error"
        [("foo", JSVal.str "bar")]).mongooseOpts
      = ([("validator", JSVal.fnRef 1), ("foo", JSVal.str "bar")].filter
          (fun kv => !(["passIfEmpty", "message", "validator", "arguments"].contains kv.1))) ∧
    ∀ k v2, k ∈ (["passIfEmpty", "message", "validator", "arguments"] : List String) →
      ¬ (k, v2) ∈ (Descriptor.mk
          (createValidator (applyFn envConst (JSVal.fnRef 1)) [] false) "Error"
          [("foo", JSVal.str "bar")]).mongooseOpts :=
  claim_C7 vjsNone demNone envConst initialState
    [("validator", JSVal.fnRef 1), ("foo", JSVal.str "bar")]
    (Descriptor.mk (createValidator (applyFn envConst (JSVal.fnRef 1)) [] false) "Error"
      [("foo", JSVal.str "bar")])
    (by decide) rfl

end MongooseValidator
